import Mathlib

/-!
# Verification of the RooUnfold unfolding base class

Shallow embedding of `src/UE_in_pp/analysis/roounfold/src/RooUnfold.cxx`
(the `RooUnfold` base class of the RooUnfold unfolding framework).

Embedding conventions:

* `Double_t` is modelled by `ℚ` (exact arithmetic; none of the verified
  claims depends on floating-point rounding).  `Int_t` is modelled by `ℤ`
  (or `ℕ` for counters).
* `TVectorD` is modelled by `List ℚ` and `TMatrixD` by `List (List ℚ)`,
  read through total accessors `vecEl` / `entry` (out-of-range reads give
  `0`, matching freshly allocated ROOT vectors/matrices, which are
  zero-initialised).
* The object state of a `RooUnfold` instance (`_rec`, `_variances`, `_cov`,
  `_err_mat`, the `_unfolded`/`_haveCov`/`_haveErrors`/`_have_err_mat`/
  `_fail` flags, `_NToys`, ...) is a structure `UState`; every member
  function becomes an explicit state-passing function.  In addition the
  state carries one instrumentation counter per compute hook (`Unfold`,
  `GetErrors`, `GetCov`, `GetErrMat`) and a counter of consumed toy
  replicas; the counters are write-only and never influence behaviour.
* Histogram bin access `RooUnfoldResponse::GetBin(h, i, _overflow)` merely
  maps a logical bin index to a ROOT storage bin; truth histograms are
  embedded directly as logical-bin lists (contents `tC`, errors `tE`).
* Randomness (`gRandom`) is modelled by oracles: `GetErrMat` receives the
  per-toy reconstructed vectors through the `toys` stream stored in the
  state, and `RunToy` receives a Poisson-draw oracle and a stream of
  Gaussian draws.
* `TDecompSVD::MultiSolve` is modelled by a `solver` parameter; theorems
  that need exactness of the solve hypothesise that the solver returns a
  solution of the linear system.  `sqrt` on `Double_t` is modelled by an
  `rsqrt : ℚ → ℚ` parameter, with the square-root property hypothesised at
  the points where it is used.
* Diagnostic messages written to `cout`/`cerr` are dropped, except where a
  claim mentions them: `New` and `Ereco`/`ErecoV` additionally return a
  `Bool` that records whether the error branch printed its message.
-/

namespace RooUnfold

/-- Total read of a vector element; `(v.getD i 0)` — out-of-range gives `0`. -/
def vecEl (v : List ℚ) (i : ℕ) : ℚ := v.getD i 0

/-- Total read of a matrix element. -/
def entry (m : List (List ℚ)) (i j : ℕ) : ℚ := (m.getD i []).getD j 0

/-- A freshly allocated `n×n` `TMatrixD` (zero-initialised). -/
def zeroMat (n : ℕ) : List (List ℚ) :=
  (List.range n).map (fun _ => (List.range n).map (fun _ => (0 : ℚ)))

/-- The mutable state of a `RooUnfold` instance, together with the fixed
configuration (response-matrix bin counts, measured data) and the
instrumentation counters described in the module docstring. -/
structure UState where
  /-- `_nm`: number of measured bins. -/
  nm : ℕ
  /-- `_nt`: number of truth bins. -/
  nt : ℕ
  /-- `Vmeasured()`: measured bin contents. -/
  meas : List ℚ
  /-- `GetMeasuredCov()`: covariance matrix of the measured distribution. -/
  measCov : List (List ℚ)
  /-- `_NToys`. -/
  NToys : ℤ
  /-- Oracle: reconstructed vector `RunToy()->Vreco()` of the k-th toy. -/
  toys : ℕ → List ℚ
  /-- `_rec`: reconstructed (unfolded) vector. -/
  vreco : List ℚ
  /-- `_variances`. -/
  variances : List ℚ
  /-- `_cov`. -/
  cov : List (List ℚ)
  /-- `_err_mat`. -/
  errMat : List (List ℚ)
  /-- `_unfolded`. -/
  unfolded : Bool
  /-- `_haveCov`. -/
  haveCov : Bool
  /-- `_haveErrors`. -/
  haveErrors : Bool
  /-- `_have_err_mat`. -/
  haveErrMat : Bool
  /-- `_fail`. -/
  fail : Bool
  /-- Instrumentation: number of `Unfold()` invocations. -/
  cUnfold : ℕ
  /-- Instrumentation: number of `GetErrors()` invocations. -/
  cGetErrors : ℕ
  /-- Instrumentation: number of `GetCov()` invocations. -/
  cGetCov : ℕ
  /-- Instrumentation: number of `GetErrMat()` invocations. -/
  cGetErrMat : ℕ
  /-- Instrumentation: number of toy replicas consumed so far. -/
  toyCount : ℕ

/-- `RooUnfold::Unfold` (the base-class dummy unfolding): `_rec.ResizeTo(_nt)`
(old entries kept, new ones zero), then copy the first `min nm nt` measured
entries; finally `_unfolded = true`. -/
def Unfold (st : UState) : UState :=
  let nb := min st.nm st.nt
  { st with
    vreco := (List.range st.nt).map
      (fun i => if i < nb then vecEl st.meas i else vecEl st.vreco i)
    unfolded := true
    cUnfold := st.cUnfold + 1 }

/-- `RooUnfold::GetCov` (base class): `_cov.ResizeTo(_nt,_nt)` (old entries
kept where they overlap, new ones zero), then copy the
`min nm nt × min nm nt` block of the measured covariance; `_haveCov = true`. -/
def GetCov (st : UState) : UState :=
  let nb := min st.nm st.nt
  { st with
    cov := (List.range st.nt).map (fun i => (List.range st.nt).map (fun j =>
      if i < nb ∧ j < nb then entry st.measCov i j else entry st.cov i j))
    haveCov := true
    cGetCov := st.cGetCov + 1 }

/-- `RooUnfold::GetErrors` (base class): if `!_haveCov` run `GetCov()`; if the
covariance is still unavailable return; otherwise `_variances` becomes the
diagonal of `_cov` and `_haveErrors = true`. -/
def GetErrors (st : UState) : UState :=
  let st0 := { st with cGetErrors := st.cGetErrors + 1 }
  let st1 := if !st0.haveCov then GetCov st0 else st0
  if !st1.haveCov then st1
  else
    { st1 with
      variances := (List.range st1.nt).map (fun i => entry st1.cov i i)
      haveErrors := true }

/-- Accumulation loop of `RooUnfold::GetErrMat`: after `k` toys,
first component = `xisum` (first moments), second = `xijsum` (second
moments); toy `k` contributes `x = toys k`. -/
def toyAccum (toys : ℕ → List ℚ) (nt : ℕ) : ℕ → List ℚ × List (List ℚ)
  | 0 => ((List.range nt).map (fun _ => 0), zeroMat nt)
  | k + 1 =>
    let p := toyAccum toys nt k
    let x := toys k
    ((List.range nt).map (fun i => vecEl p.1 i + vecEl x i),
     (List.range nt).map (fun i => (List.range nt).map (fun j =>
       entry p.2 i j + vecEl x i * vecEl x j)))

/-- `RooUnfold::GetErrMat`: if `_NToys <= 1` return immediately; otherwise run
`_NToys` toys, accumulate first and second moments of their reconstructed
vectors, and fill `_err_mat(i,j) = (xijsum(i,j) - xisum[i]*xisum[j]/_NToys)
/ (_NToys-1)`; `_have_err_mat = true`. -/
def GetErrMat (st : UState) : UState :=
  let st0 := { st with cGetErrMat := st.cGetErrMat + 1 }
  if st0.NToys ≤ 1 then st0
  else
    let N := st0.NToys.toNat
    let acc := toyAccum st0.toys st0.nt N
    { st0 with
      errMat := (List.range st0.nt).map (fun i => (List.range st0.nt).map (fun j =>
        (entry acc.2 i j - vecEl acc.1 i * vecEl acc.1 j / (st0.NToys : ℚ))
          / ((st0.NToys : ℚ) - 1)))
      haveErrMat := true
      toyCount := st0.toyCount + N }

/-- The `switch (withError)` of `RooUnfold::UnfoldWithErrors`.  The
`ErrorTreatment` enum is modelled by `ℤ` (`kNoError = 0`, `kErrors = 1`,
`kCovariance = 2`, `kCovToy = 3`); `default:` sets `ok = true`. -/
def uweGo (st : UState) (e : ℤ) : Bool × UState :=
  if e = 1 then
    let st1 := if !st.haveErrors then GetErrors st else st
    (st1.haveErrors, st1)
  else if e = 2 then
    let st1 := if !st.haveCov then GetCov st else st
    (st1.haveCov, st1)
  else if e = 3 then
    let st1 := if !st.haveErrMat then GetErrMat st else st
    (st1.haveErrMat, st1)
  else (true, st)

/-- `RooUnfold::UnfoldWithErrors`: if not yet unfolded, fail fast when
`_fail` is set, otherwise run `Unfold()` and set `_fail` if it did not
succeed; then lazily compute the requested error representation; on failure
of that computation set `_fail` as well.  (The bin-count mismatch warning,
which only prints to `cerr`, is dropped.) -/
def UnfoldWithErrors (st : UState) (e : ℤ) : Bool × UState :=
  if !st.unfolded && st.fail then (false, st)
  else
    let st0 := if st.unfolded then st else Unfold st
    if !st0.unfolded then (false, { st0 with fail := true })
    else if (uweGo st0 e).1 then uweGo st0 e
    else (false, { (uweGo st0 e).2 with fail := true })

/-- `RooUnfold::Ereco`: returns the covariance matrix for error treatment
`withError` (and a flag recording whether the `default:` error message was
printed), plus the updated state.  A zero `nt×nt` matrix is allocated first;
if `UnfoldWithErrors` fails it is returned as-is. -/
def Ereco (st : UState) (e : ℤ) : (List (List ℚ) × Bool) × UState :=
  let r := UnfoldWithErrors st e
  let st' := r.2
  if !r.1 then ((zeroMat st.nt, false), st')
  else if e = 0 then
    (((List.range st'.nt).map (fun i => (List.range st'.nt).map (fun j =>
      if i = j then vecEl st'.vreco i else 0)), false), st')
  else if e = 1 then
    (((List.range st'.nt).map (fun i => (List.range st'.nt).map (fun j =>
      if i = j then vecEl st'.variances i else 0)), false), st')
  else if e = 2 then ((st'.cov, false), st')
  else if e = 3 then ((st'.errMat, false), st')
  else ((zeroMat st'.nt, true), st')

/-- `RooUnfold::ErecoV`: vector of unfolding errors for error treatment
`withError` (with the printed-error flag, as in `Ereco`).  `sqrt(fabs(.))`
is modelled through the `rsqrt` parameter applied to `|.|`. -/
def ErecoV (st : UState) (e : ℤ) (rsqrt : ℚ → ℚ) : (List ℚ × Bool) × UState :=
  let r := UnfoldWithErrors st e
  let st' := r.2
  if !r.1 then (((List.range st.nt).map (fun _ => 0), false), st')
  else if e = 0 then
    (((List.range st'.nt).map (fun i => rsqrt |vecEl st'.vreco i|), false), st')
  else if e = 1 then
    (((List.range st'.nt).map (fun i => rsqrt |vecEl st'.variances i|), false), st')
  else if e = 2 then
    (((List.range st'.nt).map (fun i => rsqrt |entry st'.cov i i|), false), st')
  else if e = 3 then
    (((List.range st'.nt).map (fun i => rsqrt |entry st'.errMat i i|), false), st')
  else (((List.range st'.nt).map (fun _ => 0), true), st')

/-- The row total computed by `RooUnfold::CutZeros` for row `i`:
`coltot = Σ_{j < GetNrows()} ereco(i,j)` (note: the source's inner loop bound
is `GetNrows()`; all call sites pass square matrices). -/
def rowSum (m : List (List ℚ)) (i : ℕ) : ℚ :=
  ((List.range m.length).map (fun j => entry m i j)).sum

/-- `RooUnfold::CutZeros`.  First pass: collect (in increasing order) the
indices `diags` of rows whose total is zero; `missed = diags.length`.
Second pass: for each surviving row `i` — at which point the source's
counter `v` equals the number of zero rows with index `< i` — write
`ereco_cut(i-v, j) = ereco(i, j+v)` for `j < n - missed`.  Since `i - v` is
exactly the rank of `i` among surviving rows, the result is the in-order
list of surviving rows, each holding the column window `[v, n-missed+v)`. -/
def CutZeros (ereco : List (List ℚ)) : List (List ℚ) :=
  let n := ereco.length
  let diags := (List.range n).filter (fun i => decide (rowSum ereco i = 0))
  let missed := diags.length
  ((List.range n).filter (fun i => !decide (rowSum ereco i = 0))).map (fun i =>
    let v := (diags.filter (fun d => decide (d < i))).length
    (List.range (n - missed)).map (fun j => entry ereco i (j + v)))

/-- Matrix–vector product used to state exactness of the modelled
`TDecompSVD::MultiSolve` (square-matrix convention, as at the call site). -/
def mulVecList (m : List (List ℚ)) (x : List ℚ) : List ℚ :=
  (List.range m.length).map (fun i =>
    ((List.range m.length).map (fun j => entry m i j * vecEl x j)).sum)

/-- `RooUnfold::Chi2`.  For `DoChi2 ∈ {kCovariance, kCovToy}` (2, 3): fetch
the covariance via `Ereco`, return `-1` if not unfolded, build the residual
vector (zero where the truth reference is trivial), cut zero rows/columns,
return `0` if everything was cut, select the residuals at bins with nonzero
covariance diagonal into a `cut.length`-row column vector (extra rows keep
their zero initialisation), solve `cut · x = rc` through the `solver`
parameter (modelling `TDecompSVD(..).MultiSolve`), and return `rcᵀ · x`.
Otherwise (scalar path): fetch the error vector via `ErecoV`, return `-1`
if not unfolded, and accumulate `((rec - truth)/error)²` over bins with
positive error and a non-trivial truth reference.  (Determinant/condition
warnings, which only print, are dropped.) -/
def Chi2 (st : UState) (tC tE : List ℚ) (mode : ℤ) (rsqrt : ℚ → ℚ)
    (solver : List (List ℚ) → List ℚ → List ℚ) : ℚ × UState :=
  if mode = 2 ∨ mode = 3 then
    let r := Ereco st mode
    let st' := r.2
    if !st'.unfolded then (-1, st')
    else
      let ereco := r.1.1
      let res := (List.range st'.nt).map (fun i =>
        if vecEl tC i ≠ 0 ∨ 0 < vecEl tE i then vecEl st'.vreco i - vecEl tC i else 0)
      let cut := CutZeros ereco
      if cut.length = 0 then (0, st')
      else
        let sel := ((List.range st'.nt).filter
          (fun i => !decide (entry ereco i i = 0))).map (fun i => vecEl res i)
        let rc := (List.range cut.length).map (fun i => vecEl sel i)
        let x := solver cut rc
        (((List.range rc.length).map (fun i => vecEl rc i * vecEl x i)).sum, st')
  else
    let r := ErecoV st mode rsqrt
    let st' := r.2
    if !st'.unfolded then (-1, st')
    else
      let ev := r.1.1
      (((List.range st'.nt).map (fun i =>
        if 0 < vecEl ev i ∧ (vecEl tC i ≠ 0 ∨ 0 < vecEl tE i) then
          ((vecEl st'.vreco i - vecEl tC i) / vecEl ev i) ^ 2
        else 0)).sum, st')

/-- The concrete subclasses that `RooUnfold::New` can construct.  The
`Algorithm` enum is modelled by `ℤ` with the values listed in the source
comment: 0 dummy, 1 Bayes, 2 SVD, 3 bin-by-bin, 4 TUnfold, 5 inversion
(6 is the optional Dagostini backend). -/
inductive Method where
  | base | bayes | svd | binByBin | tunfoldAlg | invert | dagostini
deriving DecidableEq

/-- `RooUnfold::New`.  `hasTUnfold` / `hasDagostini` model the compile-time
availability of those backends (`#ifndef NOTUNFOLD` / `#ifdef
HAVE_DAGOSTINI`).  Result: the constructed subclass (or `none` for the
`return 0` branches) and whether an error message was printed to `cerr`. -/
def New (hasTUnfold hasDagostini : Bool) (alg : ℤ) : Option Method × Bool :=
  if alg = 0 then (some .base, false)
  else if alg = 1 then (some .bayes, false)
  else if alg = 2 then (some .svd, false)
  else if alg = 3 then (some .binByBin, false)
  else if alg = 4 then (if hasTUnfold then (some .tunfoldAlg, false) else (none, true))
  else if alg = 5 then (some .invert, false)
  else if alg = 6 then (if hasDagostini then (some .dagostini, false) else (none, true))
  else (none, true)

/-- The `while (newmeas[i] < 0.)` resampling loop of `RooUnfold::RunToy`
(Gaussian branch): successive values `old + g` for draws `g ~ Gaus(0,e)`
until the first non-negative one (`none` if the finite draw stream is
exhausted, i.e. the loop did not terminate within it). -/
def gausResample (old : ℚ) : List ℚ → Option ℚ
  | [] => none
  | g :: rest => if old + g < 0 then gausResample old rest else some (old + g)

/-- One bin of the no-measured-covariance branch of `RooUnfold::RunToy`:
bins with `e <= 0` are left unchanged; with `UsePoissonToys`,
`sig = old/e` and the bin becomes `Poisson(sig*sig)` (through the `poisson`
draw oracle); otherwise the bin is Gaussian-perturbed, resampled while
negative. -/
def runToyBin (usePoisson : Bool) (poisson : ℚ → ℚ) (draws : List ℚ)
    (v e : ℚ) : Option ℚ :=
  if e ≤ 0 then some v
  else if usePoisson then some (poisson ((v / e) * (v / e)))
  else gausResample v draws

/-- The perturbed measurement vector produced by the no-measured-covariance
branch of `RooUnfold::RunToy` (`draws i` is the Gaussian draw stream for
bin `i`). -/
def RunToyNewMeas (usePoisson : Bool) (poisson : ℚ → ℚ) (draws : ℕ → List ℚ)
    (meas err : List ℚ) : List (Option ℚ) :=
  (List.range meas.length).map (fun i =>
    runToyBin usePoisson poisson (draws i) (vecEl meas i) (vecEl err i))

/-- Written from the specification's words, for comparison with `CutZeros`:
remove every zero-total row *and the column of the same index*, keeping the
original entries at the surviving (row, column) index pairs. -/
def cutZerosClaim (m : List (List ℚ)) : List (List ℚ) :=
  let surv := (List.range m.length).filter (fun i => !decide (rowSum m i = 0))
  surv.map (fun i => surv.map (fun j => entry m i j))

/-- Written from the claim's words, for comparison with `runToyBin`: a
Poisson draw based on `(value/error)²`, rescaled back to the original scale
(one draw of mean `λ = (v/e)²` counts `v/λ = e²/v` on the original scale). -/
def runToyBinClaim (poisson : ℚ → ℚ) (v e : ℚ) : Option ℚ :=
  if e ≤ 0 then some v
  else some (poisson ((v / e) * (v / e)) * ((e * e) / v))

/-- A one-bin instance that has successfully unfolded (`_unfolded = true`,
`_rec` filled from the measurement) with no error representation computed
yet and `_NToys = 1`; used for concrete witnesses. -/
def baseState : UState where
  nm := 1
  nt := 1
  meas := [2]
  measCov := [[1]]
  NToys := 1
  toys := fun _ => [0]
  vreco := [2]
  variances := []
  cov := []
  errMat := []
  unfolded := true
  haveCov := false
  haveErrors := false
  haveErrMat := false
  fail := false
  cUnfold := 1
  cGetErrors := 0
  cGetCov := 0
  cGetErrMat := 0
  toyCount := 0

/-- A state that failed before unfolding; used for concrete witnesses. -/
def failedState : UState := { baseState with unfolded := false, fail := true }

/-- A concrete two-toy state for the C5 witness. -/
def toyState : UState :=
  { baseState with NToys := 2, toys := fun k => [2 * (k : ℚ) + 1] }

/-- A one-bin unfolded instance with cached diagonal covariance `[[4]]`. -/
def diagState : UState :=
  { baseState with haveCov := true, cov := [[4]], vreco := [3] }

/-! ## List access helper lemmas -/

theorem getD_range_map {α : Type} (f : ℕ → α) (d : α) {n i : ℕ} (h : i < n) :
    ((List.range n).map f).getD i d = f i := by
  rw [List.getD_eq_getElem?_getD, List.getElem?_map, List.getElem?_range h]
  rfl

theorem getD_range_map_ge {α : Type} (f : ℕ → α) (d : α) {n i : ℕ} (h : n ≤ i) :
    ((List.range n).map f).getD i d = d := by
  rw [List.getD_eq_getElem?_getD, List.getElem?_eq_none]
  · rfl
  · simpa using h

theorem vecEl_range_map (f : ℕ → ℚ) {n i : ℕ} (h : i < n) :
    vecEl ((List.range n).map f) i = f i :=
  getD_range_map f 0 h

theorem entry_range_map (g : ℕ → ℕ → ℚ) {n m i j : ℕ} (hi : i < n) (hj : j < m) :
    entry ((List.range n).map (fun a => (List.range m).map (g a))) i j = g i j := by
  unfold entry
  rw [getD_range_map _ _ hi, getD_range_map _ _ hj]

theorem sum_map_range (f : ℕ → ℚ) (n : ℕ) :
    ((List.range n).map f).sum = ∑ i ∈ Finset.range n, f i := by
  induction n with
  | zero => simp
  | succ n ih => rw [List.range_succ, Finset.sum_range_succ]; simp [ih]

/-! ## Simple facts about the compute hooks -/

theorem Unfold_unfolded (st : UState) : (Unfold st).unfolded = true := rfl

theorem GetCov_haveCov (st : UState) : (GetCov st).haveCov = true := rfl

theorem GetCov_unfolded (st : UState) : (GetCov st).unfolded = st.unfolded := rfl

theorem GetErrors_haveErrors (st : UState) : (GetErrors st).haveErrors = true := by
  unfold GetErrors
  by_cases h : st.haveCov <;> simp [h, GetCov]

theorem GetErrors_unfolded (st : UState) : (GetErrors st).unfolded = st.unfolded := by
  unfold GetErrors
  by_cases h : st.haveCov <;> simp [h, GetCov]

theorem GetErrMat_unfolded (st : UState) : (GetErrMat st).unfolded = st.unfolded := by
  unfold GetErrMat
  by_cases h : st.NToys ≤ 1 <;> simp [h]

theorem uweGo_unfolded (st : UState) (e : ℤ) :
    (uweGo st e).2.unfolded = st.unfolded := by
  unfold uweGo
  by_cases h1 : e = 1
  · simp only [h1, if_true]
    by_cases h : st.haveErrors <;> simp [h, GetErrors_unfolded]
  · by_cases h2 : e = 2
    · simp only [h1, h2, if_true, if_false]
      by_cases h : st.haveCov <;> simp [h, GetCov_unfolded]
    · by_cases h3 : e = 3
      · simp only [h1, h2, h3, if_true, if_false]
        by_cases h : st.haveErrMat <;> simp [h, GetErrMat_unfolded]
      · simp [h1, h2, h3]

theorem uwe_errors_ok (st : UState) (hu : st.unfolded = true) :
    (UnfoldWithErrors st 1).1 = true := by
  unfold UnfoldWithErrors uweGo
  by_cases h : st.haveErrors <;> simp [hu, h, GetErrors_haveErrors]

theorem uwe_cov_ok (st : UState) (hu : st.unfolded = true) :
    (UnfoldWithErrors st 2).1 = true := by
  unfold UnfoldWithErrors uweGo
  by_cases h : st.haveCov <;> simp [hu, h, GetCov_haveCov]

/-! ## C1 -/

/-- C1 (counterexample): the claim "once the failure flag is set (by a failed
Unfold or a failed error-computation request), every subsequent result
request returns failure until reset" is false.  On a successfully unfolded
one-bin instance with `_NToys = 1`, a `kCovToy` request fails and sets
`_fail`, yet subsequent `kErrors` and `kCovariance` requests succeed,
because `UnfoldWithErrors` consults `_fail` only in its `!_unfolded`
branch. -/
theorem fail_flag_cex :
    (UnfoldWithErrors baseState 3).1 = false ∧
    (UnfoldWithErrors baseState 3).2.fail = true ∧
    (UnfoldWithErrors (UnfoldWithErrors baseState 3).2 1).1 = true ∧
    (UnfoldWithErrors (UnfoldWithErrors baseState 3).2 2).1 = true := by
  decide

/-- C1 (amended): once `_fail` is set on an instance that has not
successfully unfolded (i.e. by a failed `Unfold`), every subsequent result
request on that instance returns failure with the state completely
unchanged (so no computation is re-run), until the instance is reset.
`_fail` set by a failed error-computation request, by contrast, leaves
`_unfolded` true and does not block later requests (see the
counterexample). -/
theorem fail_before_unfold_blocks_requests (st : UState) (e : ℤ)
    (hu : st.unfolded = false) (hf : st.fail = true) :
    UnfoldWithErrors st e = (false, st) := by
  unfold UnfoldWithErrors
  simp [hu, hf]

/-- Witness for `fail_before_unfold_blocks_requests` at a concrete state. -/
theorem fail_before_unfold_blocks_requests_witness :
    UnfoldWithErrors failedState 2 = (false, failedState) :=
  fail_before_unfold_blocks_requests failedState 2 rfl rfl

/-! ## C3 -/

/-- C3 (code bug): on the matrix `[[1,0,3],[0,0,0],[3,0,2]]`, whose middle
row and column are entirely zero, `CutZeros` returns `[[1,0],[0,2]]` — the
column *window* shifted by the running count of zero rows — instead of the
symmetric excision `[[1,3],[3,2]]` (original entries at the surviving
(row, column) index pairs) announced by the claim and by the function's own
doc comment ("Removes row & column if all their elements are 0"). -/
theorem cutZeros_shifted_window_bug :
    CutZeros [[1, 0, 3], [0, 0, 0], [3, 0, 2]] = [[1, 0], [0, 2]] ∧
    cutZerosClaim [[1, 0, 3], [0, 0, 0], [3, 0, 2]] = [[1, 3], [3, 2]] ∧
    CutZeros [[1, 0, 3], [0, 0, 0], [3, 0, 2]]
      ≠ cutZerosClaim [[1, 0, 3], [0, 0, 0], [3, 0, 2]] := by
  have h1 : CutZeros [[(1:ℚ), 0, 3], [0, 0, 0], [3, 0, 2]] = [[1, 0], [0, 2]] := by
    norm_num [CutZeros, rowSum, entry, List.range_succ, List.filter]
  have h2 : cutZerosClaim [[(1:ℚ), 0, 3], [0, 0, 0], [3, 0, 2]] = [[1, 3], [3, 2]] := by
    norm_num [cutZerosClaim, rowSum, entry, List.range_succ, List.filter]
  refine ⟨h1, h2, ?_⟩
  rw [h1, h2]
  norm_num

/-! ## C4 -/

/-- C4: with a toy count of 1 (or less), a `kCovToy` request fails without
running any toy replica (`toyCount` unchanged) and without populating the
error matrix, and the failure is local to that request: subsequent
`kErrors` and `kCovariance` requests on the same instance succeed. -/
theorem covtoy_failure_is_request_local (st : UState)
    (hN : st.NToys ≤ 1) (hu : st.unfolded = true) (hm : st.haveErrMat = false) :
    (UnfoldWithErrors st 3).1 = false ∧
    (UnfoldWithErrors st 3).2.toyCount = st.toyCount ∧
    (UnfoldWithErrors st 3).2.haveErrMat = false ∧
    (UnfoldWithErrors st 3).2.errMat = st.errMat ∧
    (UnfoldWithErrors (UnfoldWithErrors st 3).2 1).1 = true ∧
    (UnfoldWithErrors (UnfoldWithErrors st 3).2 2).1 = true := by
  have key : UnfoldWithErrors st 3
      = (false, { st with cGetErrMat := st.cGetErrMat + 1, fail := true }) := by
    unfold UnfoldWithErrors uweGo GetErrMat
    simp [hu, hm, hN]
  rw [key]
  exact ⟨rfl, rfl, hm, rfl, uwe_errors_ok _ hu, uwe_cov_ok _ hu⟩

/-- Witness for `covtoy_failure_is_request_local` at a concrete state. -/
theorem covtoy_failure_is_request_local_witness :
    (UnfoldWithErrors baseState 3).1 = false ∧
    (UnfoldWithErrors baseState 3).2.toyCount = baseState.toyCount ∧
    (UnfoldWithErrors baseState 3).2.haveErrMat = false ∧
    (UnfoldWithErrors baseState 3).2.errMat = baseState.errMat ∧
    (UnfoldWithErrors (UnfoldWithErrors baseState 3).2 1).1 = true ∧
    (UnfoldWithErrors (UnfoldWithErrors baseState 3).2 2).1 = true :=
  covtoy_failure_is_request_local baseState (by decide) rfl rfl

/-! ## C10 -/

theorem Ereco_state (st : UState) (e : ℤ) :
    (Ereco st e).2 = (UnfoldWithErrors st e).2 := by
  simp only [Ereco]
  repeat' split
  all_goals rfl

theorem ErecoV_state (st : UState) (e : ℤ) (rsqrt : ℚ → ℚ) :
    (ErecoV st e rsqrt).2 = (UnfoldWithErrors st e).2 := by
  simp only [ErecoV]
  repeat' split
  all_goals rfl

/-- C10: if the unfolded flag is not set after the requested error
computation, `Chi2` returns the sentinel `-1`, whatever the error-treatment
mode. -/
theorem chi2_minus_one_when_not_unfolded (st : UState) (tC tE : List ℚ)
    (mode : ℤ) (rsqrt : ℚ → ℚ) (solver : List (List ℚ) → List ℚ → List ℚ)
    (h : (UnfoldWithErrors st mode).2.unfolded = false) :
    (Chi2 st tC tE mode rsqrt solver).1 = -1 := by
  unfold Chi2
  by_cases hm : mode = 2 ∨ mode = 3
  · simp [hm, Ereco_state, h]
  · simp [hm, ErecoV_state, h]

/-- Witness for `chi2_minus_one_when_not_unfolded` at a concrete state. -/
theorem chi2_minus_one_when_not_unfolded_witness :
    (Chi2 failedState [1] [0] 2 (fun q => q) (fun _ b => b)).1 = -1 :=
  chi2_minus_one_when_not_unfolded failedState [1] [0] 2 (fun q => q)
    (fun _ b => b) (by decide)

/-! ## C9 -/

theorem uwe_junk (st : UState) (e : ℤ) (hu : st.unfolded = true)
    (h1 : ¬ e = 1) (h2 : ¬ e = 2) (h3 : ¬ e = 3) :
    UnfoldWithErrors st e = (true, st) := by
  unfold UnfoldWithErrors uweGo
  simp [hu, h1, h2, h3]

/-- C9: `New` returns a null pointer and prints an error message for an
algorithm value outside the known enumeration, and likewise for the
TUnfold/Dagostini cases when the corresponding backend is compiled out;
`Ereco`, given an unrecognised error-treatment value on an unfolded
instance, prints an error message and returns the all-zero `nt×nt`
matrix. -/
theorem new_null_and_ereco_zero (hasT hasD : Bool) (alg : ℤ) (st : UState)
    (e : ℤ) (halg : alg < 0 ∨ 6 < alg) (he : e < 0 ∨ 3 < e)
    (hu : st.unfolded = true) :
    New hasT hasD alg = (none, true) ∧
    New false hasD 4 = (none, true) ∧
    New hasT false 6 = (none, true) ∧
    (Ereco st e).1 = (zeroMat st.nt, true) := by
  refine ⟨?_, ?_, ?_, ?_⟩
  · have h0 : ¬ alg = 0 := by omega
    have h1 : ¬ alg = 1 := by omega
    have h2 : ¬ alg = 2 := by omega
    have h3 : ¬ alg = 3 := by omega
    have h4 : ¬ alg = 4 := by omega
    have h5 : ¬ alg = 5 := by omega
    have h6 : ¬ alg = 6 := by omega
    unfold New
    simp [h0, h1, h2, h3, h4, h5, h6]
  · unfold New; norm_num
  · unfold New; norm_num
  · have h0 : ¬ e = 0 := by omega
    have h1 : ¬ e = 1 := by omega
    have h2 : ¬ e = 2 := by omega
    have h3 : ¬ e = 3 := by omega
    unfold Ereco
    rw [uwe_junk st e hu h1 h2 h3]
    simp [h0, h1, h2, h3]

/-- Witness for `new_null_and_ereco_zero` at concrete inputs. -/
theorem new_null_and_ereco_zero_witness :
    New true true 7 = (none, true) ∧
    New false true 4 = (none, true) ∧
    New true false 6 = (none, true) ∧
    (Ereco baseState 9).1 = (zeroMat baseState.nt, true) :=
  new_null_and_ereco_zero true true 7 baseState 9 (by omega) (by omega) rfl

/-! ## C8 -/

theorem gausResample_spec (old : ℚ) (ds : List ℚ) (r : ℚ) :
    gausResample old ds = some r →
    0 ≤ r ∧ ∃ k, k < ds.length ∧ r = old + ds.getD k 0 ∧
      ∀ m, m < k → old + ds.getD m 0 < 0 := by
  induction ds with
  | nil => intro h; simp [gausResample] at h
  | cons g rest ih =>
    intro h
    unfold gausResample at h
    by_cases hg : old + g < 0
    · rw [if_pos hg] at h
      obtain ⟨hr, k, hk, hrk, hmin⟩ := ih h
      refine ⟨hr, k + 1, by simpa using hk, by simpa using hrk, ?_⟩
      intro m hm
      cases m with
      | zero => simpa using hg
      | succ m => simpa using hmin m (by omega)
    · rw [if_neg hg] at h
      have hr : old + g = r := by injection h
      subst hr
      exact ⟨le_of_not_lt hg, 0, by simp, by simp,
        fun m hm => absurd hm (Nat.not_lt_zero m)⟩

/-- C8 (amended): in the no-measured-covariance branch of `RunToy`, a bin
with non-positive error is left unchanged; with the global Poisson-toy mode
enabled, the bin value is replaced directly by a Poisson draw of mean
`(value/error)²` — with no rescaling back to the original scale; otherwise
the bin value is replaced by the first non-negative Gaussian perturbation
`value + Gaus(0, error)` (earlier draws all being negative). -/
theorem runToy_perturbation_policy (up : Bool) (poisson : ℚ → ℚ)
    (draws : ℕ → List ℚ) (meas err : List ℚ) (i : ℕ) (hi : i < meas.length) :
    (vecEl err i ≤ 0 →
      (RunToyNewMeas up poisson draws meas err).getD i none
        = some (vecEl meas i)) ∧
    (0 < vecEl err i → up = true →
      (RunToyNewMeas up poisson draws meas err).getD i none
        = some (poisson ((vecEl meas i / vecEl err i)
            * (vecEl meas i / vecEl err i)))) ∧
    (0 < vecEl err i → up = false → ∀ r,
      (RunToyNewMeas up poisson draws meas err).getD i none = some r →
      0 ≤ r ∧ ∃ k, k < (draws i).length ∧ r = vecEl meas i + (draws i).getD k 0 ∧
        ∀ m, m < k → vecEl meas i + (draws i).getD m 0 < 0) := by
  have hE : (RunToyNewMeas up poisson draws meas err).getD i none
      = runToyBin up poisson (draws i) (vecEl meas i) (vecEl err i) :=
    getD_range_map _ none hi
  rw [hE]
  unfold runToyBin
  refine ⟨fun hle => by rw [if_pos hle], fun hlt hup => ?_, fun hlt hup r hr => ?_⟩
  · rw [if_neg (not_le_of_lt hlt), hup, if_pos rfl]
  · rw [if_neg (not_le_of_lt hlt), hup] at hr
    simp only [Bool.false_eq_true, if_false] at hr
    exact gausResample_spec _ _ _ hr

/-- Witness for `runToy_perturbation_policy`: Poisson branch at
`value = 4`, `error = 1`, mean-returning draw oracle. -/
theorem runToy_perturbation_policy_witness :
    (RunToyNewMeas true (fun m => m) (fun _ => []) [4] [1]).getD 0 none
      = some 16 := by
  have h := (runToy_perturbation_policy true (fun m => m) (fun _ => [])
    [4] [1] 0 (by norm_num)).2.1 (by norm_num [vecEl]) rfl
  rw [h]
  norm_num [vecEl]

/-- C8 (counterexample to the claim as stated): with the mean-returning
Poisson oracle at `value = 4`, `error = 1`, the code's bin value is
`(value/error)² = 16` (no rescaling), whereas the claim's "rescaled back to
the original scale" draw is `4`. -/
theorem runToy_poisson_not_rescaled :
    runToyBin true (fun m => m) [] 4 1 = some 16 ∧
    runToyBinClaim (fun m => m) 4 1 = some 4 ∧
    runToyBin true (fun m => m) [] 4 1 ≠ runToyBinClaim (fun m => m) 4 1 := by
  have h1 : runToyBin true (fun m => m) [] 4 1 = some 16 := by
    norm_num [runToyBin]
  have h2 : runToyBinClaim (fun m => m) 4 1 = some 4 := by
    norm_num [runToyBinClaim]
  refine ⟨h1, h2, ?_⟩
  rw [h1, h2]
  norm_num

/-! ## C7 -/

/-- C7: the base-class `GetCov` fills the `nt×nt` covariance cache by
copying the `min(nm,nt)×min(nm,nt)` sub-block of the measured covariance
(all other entries zero, the cache being freshly allocated), and the
base-class `GetErrors` invokes `GetCov` when the covariance has not yet
been computed (instrumentation counter incremented — a dependent code
path) and produces the variance vector as exactly the diagonal of that
covariance. -/
theorem base_getcov_geterrors (st : UState)
    (hc : st.haveCov = false) (hfresh : st.cov = []) :
    (GetCov st).haveCov = true ∧
    (∀ i ∈ Finset.range st.nt, ∀ j ∈ Finset.range st.nt,
      entry (GetCov st).cov i j =
        if i < min st.nm st.nt ∧ j < min st.nm st.nt
        then entry st.measCov i j else 0) ∧
    (GetErrors st).haveErrors = true ∧
    (GetErrors st).cov = (GetCov st).cov ∧
    (∀ i ∈ Finset.range st.nt,
      vecEl (GetErrors st).variances i = entry (GetCov st).cov i i) ∧
    (GetErrors st).cGetCov = st.cGetCov + 1 := by
  refine ⟨rfl, ?_, ?_, ?_, ?_, ?_⟩
  · intro i hi j hj
    rw [Finset.mem_range] at hi hj
    show entry ((List.range st.nt).map (fun i => (List.range st.nt).map (fun j =>
      if i < min st.nm st.nt ∧ j < min st.nm st.nt
      then entry st.measCov i j else entry st.cov i j))) i j = _
    rw [entry_range_map _ hi hj, hfresh]
    rfl
  · exact GetErrors_haveErrors st
  · unfold GetErrors
    simp [hc]
    rfl
  · intro i hi
    rw [Finset.mem_range] at hi
    unfold GetErrors
    simp only [hc, Bool.not_false, if_true]
    exact vecEl_range_map _ hi
  · unfold GetErrors
    simp [hc]
    rfl

/-- Witness for `base_getcov_geterrors` at a concrete state. -/
theorem base_getcov_geterrors_witness :
    vecEl (GetErrors baseState).variances 0 = entry (GetCov baseState).cov 0 0 ∧
    (GetErrors baseState).cGetCov = baseState.cGetCov + 1 := by
  have h := base_getcov_geterrors baseState rfl rfl
  exact ⟨h.2.2.2.2.1 0 (by decide), h.2.2.2.2.2⟩

/-! ## C2 -/

theorem uweGo_one (st : UState) :
    uweGo st 1 = ((if !st.haveErrors then GetErrors st else st).haveErrors,
      if !st.haveErrors then GetErrors st else st) := rfl

theorem uweGo_two (st : UState) :
    uweGo st 2 = ((if !st.haveCov then GetCov st else st).haveCov,
      if !st.haveCov then GetCov st else st) := rfl

theorem uweGo_three (st : UState) :
    uweGo st 3 = ((if !st.haveErrMat then GetErrMat st else st).haveErrMat,
      if !st.haveErrMat then GetErrMat st else st) := rfl

theorem uweGo_other (st : UState) (e : ℤ)
    (h1 : ¬ e = 1) (h2 : ¬ e = 2) (h3 : ¬ e = 3) : uweGo st e = (true, st) := by
  unfold uweGo
  rw [if_neg h1, if_neg h2, if_neg h3]

theorem uweGo_repeat (st : UState) (e : ℤ) (h : (uweGo st e).1 = true) :
    uweGo (uweGo st e).2 e = (true, (uweGo st e).2) := by
  by_cases h1 : e = 1
  · subst h1
    have h' : (if !st.haveErrors then GetErrors st else st).haveErrors = true := h
    simp at h'
    simp only [uweGo_one]
    simp [h']
  · by_cases h2 : e = 2
    · subst h2
      have h' : (if !st.haveCov then GetCov st else st).haveCov = true := h
      simp at h'
      simp only [uweGo_two]
      simp [h']
    · by_cases h3 : e = 3
      · subst h3
        have h' : (if !st.haveErrMat then GetErrMat st else st).haveErrMat = true := h
        simp at h'
        simp only [uweGo_three]
        simp [h']
      · rw [uweGo_other st e h1 h2 h3]
        exact uweGo_other st e h1 h2 h3

/-- C2: if a result request through `UnfoldWithErrors` succeeds, repeating
the identical request returns success with the state completely unchanged:
the same cached reconstructed vector, variance vector, covariance and toy
error matrix are returned, and none of the compute hooks (`Unfold`,
`GetErrors`, `GetCov`, `GetErrMat`) is invoked again — the state equality
covers the instrumentation counters, which count hook invocations. -/
theorem uwe_request_idempotent (st : UState) (e : ℤ)
    (h : (UnfoldWithErrors st e).1 = true) :
    UnfoldWithErrors (UnfoldWithErrors st e).2 e
      = (true, (UnfoldWithErrors st e).2) := by
  unfold UnfoldWithErrors at h ⊢
  by_cases hcond : (!st.unfolded && st.fail) = true
  · rw [if_pos hcond] at h
    exact absurd h (by simp)
  · rw [if_neg hcond] at h ⊢
    generalize hG : (if st.unfolded = true then st else Unfold st) = st0 at h ⊢
    have hst0 : st0.unfolded = true := by
      rw [← hG]
      by_cases hu : st.unfolded = true
      · rwa [if_pos hu]
      · rw [if_neg hu]; exact Unfold_unfolded st
    rw [if_neg (by simp [hst0] : ¬ (!st0.unfolded) = true)] at h ⊢
    by_cases hok : (uweGo st0 e).1 = true
    · rw [if_pos hok] at h ⊢
      have hs1u : (uweGo st0 e).2.unfolded = true := by
        rw [uweGo_unfolded]; exact hst0
      rw [if_neg (by simp [hs1u, Bool.not_eq_true'] :
            ¬ (!(uweGo st0 e).2.unfolded && (uweGo st0 e).2.fail) = true)]
      rw [if_pos hs1u]
      rw [if_neg (by simp [hs1u] : ¬ (!(uweGo st0 e).2.unfolded) = true)]
      rw [uweGo_repeat st0 e hok]
      simp
    · rw [if_neg hok] at h
      exact absurd h (by simp)

/-- Witness for `uwe_request_idempotent`: a repeated `kErrors` request on a
concrete unfolded instance. -/
theorem uwe_request_idempotent_witness :
    UnfoldWithErrors (UnfoldWithErrors baseState 1).2 1
      = (true, (UnfoldWithErrors baseState 1).2) :=
  uwe_request_idempotent baseState 1 (by decide)

/-! ## C5 -/

theorem toyAccum_first (toys : ℕ → List ℚ) (nt : ℕ) (N : ℕ) (i : ℕ)
    (hi : i < nt) :
    vecEl (toyAccum toys nt N).1 i = ∑ k ∈ Finset.range N, vecEl (toys k) i := by
  induction N with
  | zero =>
    show vecEl ((List.range nt).map (fun _ => 0)) i = _
    rw [vecEl_range_map _ hi]
    simp
  | succ N ih =>
    show vecEl ((List.range nt).map
      (fun a => vecEl (toyAccum toys nt N).1 a + vecEl (toys N) a)) i = _
    rw [vecEl_range_map _ hi, ih, Finset.sum_range_succ]

theorem toyAccum_second (toys : ℕ → List ℚ) (nt : ℕ) (N : ℕ) (i j : ℕ)
    (hi : i < nt) (hj : j < nt) :
    entry (toyAccum toys nt N).2 i j
      = ∑ k ∈ Finset.range N, vecEl (toys k) i * vecEl (toys k) j := by
  induction N with
  | zero =>
    show entry (zeroMat nt) i j = _
    unfold zeroMat
    rw [entry_range_map _ hi hj]
    simp
  | succ N ih =>
    show entry ((List.range nt).map (fun a => (List.range nt).map (fun b =>
      entry (toyAccum toys nt N).2 a b + vecEl (toys N) a * vecEl (toys N) b))) i j = _
    rw [entry_range_map _ hi hj, ih, Finset.sum_range_succ]

/-- C5: for a toy count `N > 1`, `GetErrMat` consumes exactly `N` toy
replicas, accumulates the first moments `Σxᵢ` and second moments `Σxᵢxⱼ`
of the toy reconstructed vectors, and fills every entry `(i,j)` of the toy
error matrix with the empirical covariance
`(Σxᵢxⱼ − Σxᵢ·Σxⱼ/N) / (N−1)`. -/
theorem getErrMat_empirical_covariance (st : UState) (hN : 1 < st.NToys)
    (i j : ℕ) (hi : i < st.nt) (hj : j < st.nt) :
    (GetErrMat st).haveErrMat = true ∧
    (GetErrMat st).toyCount = st.toyCount + st.NToys.toNat ∧
    entry (GetErrMat st).errMat i j =
      ((∑ k ∈ Finset.range st.NToys.toNat, vecEl (st.toys k) i * vecEl (st.toys k) j)
        - (∑ k ∈ Finset.range st.NToys.toNat, vecEl (st.toys k) i)
          * (∑ k ∈ Finset.range st.NToys.toNat, vecEl (st.toys k) j) / (st.NToys : ℚ))
        / ((st.NToys : ℚ) - 1) := by
  have hN' : ¬ st.NToys ≤ 1 := by omega
  unfold GetErrMat
  rw [if_neg hN']
  refine ⟨rfl, rfl, ?_⟩
  show entry ((List.range st.nt).map (fun a => (List.range st.nt).map (fun b =>
    (entry (toyAccum st.toys st.nt st.NToys.toNat).2 a b
      - vecEl (toyAccum st.toys st.nt st.NToys.toNat).1 a
        * vecEl (toyAccum st.toys st.nt st.NToys.toNat).1 b / (st.NToys : ℚ))
      / ((st.NToys : ℚ) - 1)))) i j = _
  rw [entry_range_map _ hi hj, toyAccum_second _ _ _ _ _ hi hj,
    toyAccum_first _ _ _ _ hi, toyAccum_first _ _ _ _ hj]

/-- Witness for `getErrMat_empirical_covariance`: with toys `[1]` and `[3]`,
the empirical covariance entry is `(10 − 4·4/2) / 1 = 2`. -/
theorem getErrMat_empirical_covariance_witness :
    entry (GetErrMat toyState).errMat 0 0 = 2 := by
  have h := (getErrMat_empirical_covariance toyState (by norm_num [toyState, baseState])
    0 0 (by norm_num [toyState, baseState]) (by norm_num [toyState, baseState])).2.2
  rw [h]
  have h2 : Int.toNat 2 = 2 := rfl
  norm_num [toyState, baseState, vecEl, h2, Finset.sum_range_succ]

/-! ## C6 -/

theorem mat_eta (C : List (List ℚ)) (hr : ∀ r ∈ C, r.length = C.length) :
    (List.range C.length).map (fun i => (List.range C.length).map
      (fun j => entry C i j)) = C := by
  apply List.ext_getElem
  · simp
  · intro i h1 h2
    rw [List.getElem_map, List.getElem_range]
    apply List.ext_getElem
    · simp [hr _ (List.getElem_mem h2)]
    · intro j h3 h4
      rw [List.getElem_map, List.getElem_range]
      unfold entry
      rw [List.getD_eq_getElem C [] h2, List.getD_eq_getElem _ 0 h4]

theorem vecEl_map_range_self (f : ℕ → ℚ) (n : ℕ) :
    (List.range n).map (fun i => vecEl ((List.range n).map f) i)
      = (List.range n).map f := by
  apply List.map_congr_left
  intro a ha
  rw [vecEl_range_map _ (List.mem_range.mp ha)]

theorem cutZeros_no_zero_rows (C : List (List ℚ))
    (h : ∀ i ∈ Finset.range C.length, rowSum C i ≠ 0)
    (hr : ∀ r ∈ C, r.length = C.length) :
    CutZeros C = C := by
  unfold CutZeros
  have hd : (List.range C.length).filter (fun i => decide (rowSum C i = 0)) = [] := by
    rw [List.filter_eq_nil_iff]
    intro a ha
    simp only [decide_eq_true_eq]
    exact h a (Finset.mem_range.mpr (List.mem_range.mp ha))
  have hf : (List.range C.length).filter (fun i => !decide (rowSum C i = 0))
      = List.range C.length := by
    rw [List.filter_eq_self]
    intro a ha
    simp [h a (Finset.mem_range.mpr (List.mem_range.mp ha))]
  simp only [hd, hf]
  simp only [List.length_nil, Nat.sub_zero, List.filter_nil, Nat.add_zero]
  exact mat_eta C hr

/-- C6: on an unfolded instance whose cached covariance is purely diagonal
with positive diagonal entries, `Chi2` through the scalar-variance path
(`kErrors`, base-class variance = diagonal of the covariance) equals `Chi2`
through the full-covariance path (`kCovariance`), provided the modelled
square root satisfies the square-root property at the diagonal entries and
the modelled SVD solve is exact on this covariance; moreover the scalar
path's value is the sum over bins with positive error and a non-trivial
truth reference of `((reconstructed − truth)/error)²`. -/
theorem chi2_scalar_eq_full_for_diagonal_cov (st : UState) (tC tE : List ℚ)
    (rsqrt : ℚ → ℚ) (solver : List (List ℚ) → List ℚ → List ℚ)
    (hu : st.unfolded = true) (hcov : st.haveCov = true)
    (herr : st.haveErrors = false)
    (hL : st.cov.length = st.nt) (hr : ∀ r ∈ st.cov, r.length = st.nt)
    (hdiag : ∀ i ∈ Finset.range st.nt, ∀ j ∈ Finset.range st.nt,
      i ≠ j → entry st.cov i j = 0)
    (hpos : ∀ i ∈ Finset.range st.nt, 0 < entry st.cov i i)
    (hsqrt : ∀ i ∈ Finset.range st.nt,
      0 ≤ rsqrt |entry st.cov i i| ∧ rsqrt |entry st.cov i i| ^ 2 = |entry st.cov i i|)
    (hsol : ∀ b : List ℚ, b.length = st.nt →
      mulVecList st.cov (solver st.cov b) = b) :
    (Chi2 st tC tE 1 rsqrt solver).1 = (Chi2 st tC tE 2 rsqrt solver).1 ∧
    (Chi2 st tC tE 1 rsqrt solver).1 =
      ∑ i ∈ Finset.range st.nt,
        (if 0 < rsqrt |entry st.cov i i| ∧ (vecEl tC i ≠ 0 ∨ 0 < vecEl tE i) then
          ((vecEl st.vreco i - vecEl tC i) / rsqrt |entry st.cov i i|) ^ 2 else 0) := by
  -- the state after a `kErrors` request
  have hGE : GetErrors st
      = { st with
          cGetErrors := st.cGetErrors + 1
          variances := (List.range st.nt).map (fun i => entry st.cov i i)
          haveErrors := true } := by
    unfold GetErrors
    simp [hcov]
  have huwe1 : UnfoldWithErrors st 1 = (true, GetErrors st) := by
    unfold UnfoldWithErrors
    simp [hu, herr, uweGo_one, GetErrors_haveErrors]
  have huwe2 : UnfoldWithErrors st 2 = (true, st) := by
    unfold UnfoldWithErrors
    simp [hu, hcov, uweGo_two]
  have hEreco : Ereco st 2 = ((st.cov, false), st) := by
    unfold Ereco
    rw [huwe2]
    simp
  have hmapvar : (List.range st.nt).map (fun i =>
      rsqrt |vecEl ((List.range st.nt).map (fun a => entry st.cov a a)) i|)
      = (List.range st.nt).map (fun i => rsqrt |entry st.cov i i|) := by
    apply List.map_congr_left
    intro a ha
    rw [vecEl_range_map _ (List.mem_range.mp ha)]
  have hErecoV : ErecoV st 1 rsqrt
      = (((List.range st.nt).map (fun i => rsqrt |entry st.cov i i|), false),
          GetErrors st) := by
    unfold ErecoV
    rw [huwe1, hGE]
    simpa using hmapvar
  -- scalar-path value
  have hscalar : (Chi2 st tC tE 1 rsqrt solver).1 =
      ∑ i ∈ Finset.range st.nt,
        (if 0 < rsqrt |entry st.cov i i| ∧ (vecEl tC i ≠ 0 ∨ 0 < vecEl tE i) then
          ((vecEl st.vreco i - vecEl tC i) / rsqrt |entry st.cov i i|) ^ 2
        else 0) := by
    unfold Chi2
    rw [if_neg (by norm_num)]
    rw [hErecoV, hGE]
    simp only [hu, Bool.not_true, Bool.false_eq_true, if_false]
    rw [sum_map_range]
    apply Finset.sum_congr rfl
    intro i hi
    rw [vecEl_range_map _ (Finset.mem_range.mp hi)]
  refine ⟨?_, hscalar⟩
  -- full-covariance-path value
  have hrowSum : ∀ i ∈ Finset.range st.nt, rowSum st.cov i = entry st.cov i i := by
    intro i hi
    unfold rowSum
    rw [hL, sum_map_range]
    exact Finset.sum_eq_single_of_mem i hi
      (fun j hj hne => hdiag i hi j hj (fun he => hne he.symm))
  have hnz : ∀ i ∈ Finset.range st.cov.length, rowSum st.cov i ≠ 0 := by
    rw [hL]
    intro i hi
    rw [hrowSum i hi]
    exact ne_of_gt (hpos i hi)
  have hcut : CutZeros st.cov = st.cov := cutZeros_no_zero_rows st.cov hnz
    (by rw [hL]; exact hr)
  by_cases hn0 : st.nt = 0
  · -- everything is empty: both paths give 0
    have hfull : (Chi2 st tC tE 2 rsqrt solver).1 = 0 := by
      unfold Chi2
      rw [if_pos (Or.inl rfl), hEreco]
      simp only [hu]
      rw [hcut]
      simp [hL, hn0]
    rw [hscalar, hfull, hn0]
    simp
  · have hselfilter : (List.range st.nt).filter
        (fun i => !decide (entry st.cov i i = 0)) = List.range st.nt := by
      rw [List.filter_eq_self]
      intro a ha
      simp [ne_of_gt (hpos a (Finset.mem_range.mpr (List.mem_range.mp ha)))]
    rw [hscalar]
    unfold Chi2
    rw [if_pos (Or.inl rfl), hEreco]
    simp only [hu, Bool.not_true, Bool.false_eq_true, if_false]
    rw [hcut]
    simp only [hL, hselfilter, vecEl_map_range_self]
    rw [if_neg hn0]
    rw [sum_map_range]
    simp only [List.length_map, List.length_range]
    apply Eq.symm
    apply Finset.sum_congr rfl
    intro i hi
    have hin : i < st.nt := Finset.mem_range.mp hi
    obtain ⟨hsq0, hsq2⟩ := hsqrt i hi
    have hd : 0 < entry st.cov i i := hpos i hi
    have habs : |entry st.cov i i| = entry st.cov i i := abs_of_pos hd
    have hrpos : 0 < rsqrt |entry st.cov i i| := by
      rcases eq_or_lt_of_le hsq0 with he | hlt
      · exfalso
        rw [← he] at hsq2
        rw [habs] at hsq2
        simp at hsq2
        rw [← hsq2] at hd
        exact lt_irrefl 0 hd
      · exact hlt
    have hlenres : ((List.range st.nt).map (fun a =>
        if ¬ vecEl tC a = 0 ∨ 0 < vecEl tE a
        then vecEl st.vreco a - vecEl tC a else 0)).length = st.nt := by
      simp
    have hx := hsol _ hlenres
    have hxi : entry st.cov i i * vecEl (solver st.cov ((List.range st.nt).map (fun a =>
        if ¬ vecEl tC a = 0 ∨ 0 < vecEl tE a
        then vecEl st.vreco a - vecEl tC a else 0))) i
        = (if ¬ vecEl tC i = 0 ∨ 0 < vecEl tE i
           then vecEl st.vreco i - vecEl tC i else 0) := by
      have h1 := congrArg (fun v => vecEl v i) hx
      simp only at h1
      unfold mulVecList at h1
      rw [hL, vecEl_range_map _ hin, vecEl_range_map _ hin, sum_map_range] at h1
      rw [Finset.sum_eq_single_of_mem i hi
        (fun j hj hne => by
          rw [hdiag i hi j hj (fun he => hne he.symm)]
          ring)] at h1
      exact h1
    rw [vecEl_range_map _ hin]
    by_cases hP : ¬ vecEl tC i = 0 ∨ 0 < vecEl tE i
    · rw [if_pos hP] at hxi ⊢
      rw [if_pos ⟨hrpos, hP⟩]
      have hq : vecEl (solver st.cov ((List.range st.nt).map (fun a =>
          if ¬ vecEl tC a = 0 ∨ 0 < vecEl tE a
          then vecEl st.vreco a - vecEl tC a else 0))) i
          = (vecEl st.vreco i - vecEl tC i) / entry st.cov i i := by
        rw [eq_div_iff (ne_of_gt hd), mul_comm]
        exact hxi
      rw [hq, div_pow, hsq2, habs]
      ring
    · rw [if_neg hP] at hxi ⊢
      rw [if_neg (fun h => hP h.2)]
      rw [zero_mul]

/-- Witness for `chi2_scalar_eq_full_for_diagonal_cov`: covariance `[[4]]`,
reconstructed `[3]`, truth `[1]`, square root `2`, exact one-bin solver. -/
theorem chi2_scalar_eq_full_witness :
    (Chi2 diagState [1] [0] 1 (fun _ => 2) (fun _ b => [vecEl b 0 / 4])).1
      = (Chi2 diagState [1] [0] 2 (fun _ => 2) (fun _ b => [vecEl b 0 / 4])).1 :=
  (chi2_scalar_eq_full_for_diagonal_cov diagState [1] [0] (fun _ => 2)
    (fun _ b => [vecEl b 0 / 4]) rfl rfl rfl rfl
    (by
      intro r hr
      simp only [diagState, baseState] at hr ⊢
      simp at hr
      simp [hr])
    (by
      intro i hi j hj hne
      exfalso
      rw [Finset.mem_range] at hi hj
      simp only [diagState, baseState] at hi hj
      omega)
    (by
      intro i hi
      rw [Finset.mem_range] at hi
      simp only [diagState, baseState] at hi ⊢
      interval_cases i
      norm_num [entry])
    (by
      intro i hi
      rw [Finset.mem_range] at hi
      simp only [diagState, baseState] at hi ⊢
      interval_cases i
      norm_num [entry])
    (by
      intro b hb
      simp only [diagState, baseState] at hb ⊢
      rcases b with _ | ⟨a, b⟩
      · simp at hb
      · rcases b with _ | ⟨c, b⟩
        · simp [mulVecList, entry, vecEl, List.range_succ]
          ring
        · simp at hb)).1

end RooUnfold
